import Mathlib

/-
Verification development for the Absolute Zero Wallet program
(absolutezero.py). The Python source is shallowly embedded below:
pure computations become Lean functions, the interactive keyboard
loops become folds over the list of keystroke codes (as returned by
ord() in the source), and the interactions with the external
electrum process are driven by an explicit oracle describing the
outcome of each external call. SHA-256 is implemented concretely
(over lists of byte values) so that witnesses can be evaluated;
the mnemonic codec is external library code and is passed in as a
function parameter where needed.
-/

namespace AbsoluteZero

/-! ### Configuration constants (kEntropyInfo and file name constants) -/

/-- kEntropyInfo['minDiceRolls'] = 50 -/
def minDiceRolls : Nat := 50

/-- kEntropyInfo['targetEntropyBits'] = 128 -/
def targetEntropyBits : Nat := 128

/-- kEntropyInfo['targetEntropyHex'] = 32 -/
def targetEntropyHex : Nat := 32

/-- kTempWalletPath constant from the source. -/
def kTempWalletPath : String := "/home/btc/private-wallet"

/-- kDataFolder constant from the source. -/
def kDataFolder : String := "/xfer"

/-- kTxnFileExtension constant from the source. -/
def kTxnFileExtension : String := ".txn"

/-- kUnsignedTxnFileBase constant from the source. -/
def kUnsignedTxnFileBase : String := "unsigned"

/-- kSignedTxnFile_success constant from the source. -/
def kSignedTxnFile_success : String := "signed-success"

/-- kSignedTxnFile_failure constant from the source. -/
def kSignedTxnFile_failure : String := "signed-failure"

/-! ### ASCII case helpers (Python str.lower / str.upper on ASCII data) -/

/-- Lowercase one ASCII character, as Python str.lower does on ASCII. -/
def asciiLowerChar (c : Char) : Char :=
  if 65 ≤ c.toNat ∧ c.toNat ≤ 90 then Char.ofNat (c.toNat + 32) else c

/-- Uppercase one ASCII character, as Python str.upper does on ASCII. -/
def asciiUpperChar (c : Char) : Char :=
  if 97 ≤ c.toNat ∧ c.toNat ≤ 122 then Char.ofNat (c.toNat - 32) else c

/-- Python str.lower on an ASCII string. -/
def asciiLowerStr (s : String) : String := ⟨s.data.map asciiLowerChar⟩

/-- Python str.upper on an ASCII string. -/
def asciiUpperStr (s : String) : String := ⟨s.data.map asciiUpperChar⟩

/-! ### Hexadecimal formatting ("%X" and "%032X" in the source) -/

/-- One uppercase hexadecimal digit character for a value below 16. -/
def hexUpperDigit (d : Nat) : Char :=
  if d < 10 then Char.ofNat (48 + d) else Char.ofNat (55 + d)

/-- Hexadecimal digits of n, least significant first, empty for 0.
The first argument is fuel; n itself is always enough fuel since a
positive number has at most as many digits as its value. -/
def hexDigitsRevF : Nat → Nat → List Char
  | 0, _ => []
  | fuel + 1, n =>
    if n = 0 then [] else hexUpperDigit (n % 16) :: hexDigitsRevF fuel (n / 16)

/-- Python "%X" % n : uppercase hexadecimal, no leading zeros, "0" for 0. -/
def toHexUpper (n : Nat) : String :=
  if n = 0 then "0" else ⟨(hexDigitsRevF n n).reverse⟩

/-- Pad a string on the left with '0' up to the given width
(the effect of a 0-flagged minimum field width such as "%032X"). -/
def padLeftZeros (width : Nat) (s : String) : String :=
  ⟨List.replicate (width - s.data.length) '0' ++ s.data⟩

/-- Python ("%032X") % n, with width 32 = targetEntropyHex. -/
def formatHexFixed (width n : Nat) : String := padLeftZeros width (toHexUpper n)

/-! ### Dice entry (getSeedFromDiceResults, source lines 686-719)

The keyboard loop reads one keystroke code at a time.  A carriage
return (13) diverts to mnemonic entry (not modelled here); a code
outside 49..54 (the characters '1'..'6') is rejected with a status
message and consumed without changing the entry state; an accepted
code appends the raw character to rolls_arg and the normalized
character chr(keyval-1) to rolls_normalized, then recomputes
rolls_int = int(rolls_normalized, 6) % 2**targetEntropyBits from
scratch and displays seed_hex = "%X" % rolls_int.  We represent
rolls_normalized by the list of its base-6 digit values (the value
int(s, 6) computes is the base-6 fold over those digits). -/

/-- Value of a base-6 digit string, as int(s, 6) computes it. -/
def ofBase6 (ds : List Nat) : Nat := ds.foldl (fun a d => 6 * a + d) 0

/-- State of the dice-entry loop. -/
structure DiceState where
  rolls_arg : List Nat
  rolls_normalized : List Nat
  rolls_int : Nat
  seed_hex : String
  deriving Repr, DecidableEq

/-- State before the first keystroke. -/
def initDiceState : DiceState := ⟨[], [], 0, ""⟩

/-- One iteration of the dice loop body for keystroke code kv
(codes other than 13, which leaves the loop for mnemonic entry). -/
def diceStep (st : DiceState) (kv : Nat) : DiceState :=
  if kv < 49 ∨ 54 < kv then st
  else
    let rolls_arg := st.rolls_arg ++ [kv]
    let rolls_normalized := st.rolls_normalized ++ [kv - 49]
    let rolls_int := ofBase6 rolls_normalized % 2 ^ targetEntropyBits
    ⟨rolls_arg, rolls_normalized, rolls_int, toHexUpper rolls_int⟩

/-- Dice loop over a list of keystroke codes. -/
def diceRun (keys : List Nat) : DiceState := keys.foldl diceStep initDiceState

/-- getSeedFromDiceResults: the loop runs until minDiceRolls accepted
rolls, then the hex string is recalculated a final time with
("%0" + str(targetEntropyHex) + "X") to force leading zeros. -/
def getSeedFromDiceResults (keys : List Nat) : String :=
  formatHexFixed targetEntropyHex (diceRun keys).rolls_int

/-- Spec-side definition: the base-6 value of a digit sequence. -/
def base6ValueSpec (ds : List Nat) : Nat := ds.foldl (fun a d => 6 * a + d) 0

/-- Spec-side definition: format_hex(value, width) with leading zeros. -/
def formatHexSpec (width n : Nat) : String := padLeftZeros width (toHexUpper n)

/-! ### Mnemonic word entry keystroke handling (source lines 587-600)

The word-entry loop maps an uppercase letter code (65..90) to its
lowercase counterpart by adding 32 and maps a carriage return (13)
to a space (32); it then appends codes 97..122 to the word buffer,
rejects anything that is now neither 32 nor 127 as out-of-range,
treats 127 as backspace and 32 as the word/phrase separator. -/

/-- Action the word-entry loop takes for one keystroke. -/
inductive WordKeyAction where
  | appendChar (c : Char)
  | wordBreak
  | backspace
  | reject
  deriving Repr, DecidableEq

/-- Classification of one keystroke code by the word-entry loop. -/
def classifyWordKey (kv : Nat) : WordKeyAction :=
  let kv2 := if 65 ≤ kv ∧ kv ≤ 90 then kv + 32 else if kv = 13 then 32 else kv
  if 97 ≤ kv2 ∧ kv2 ≤ 122 then .appendChar (Char.ofNat kv2)
  else if kv2 ≠ 32 ∧ kv2 ≠ 127 then .reject
  else if kv2 = 127 then .backspace
  else .wordBreak

/-! ### Password strengthening (getSeedFromMnemonics, source lines 641-684)

The password loop reads keystroke codes; codes outside
{48..57, 65..90, 97..122, 32, 13, 127} are rejected; an in-range
printable code is appended to password_str, 127 removes the last
character, 13 breaks out of the loop.  After an append or a
backspace (but not after the break) the protected seed is
recomputed from scratch: if the password is non-empty, the running
hash starts from the lowercased seed and for each password
character c is replaced by the SHA-256 hex digest of
running + ":" + c, and the protected seed is the first
targetEntropyHex characters of the final digest, uppercased;
otherwise the protected seed is the seed itself.  The hash function
is a parameter (the source calls hashlib.sha256(...).hexdigest()). -/

/-- The running-hash chain of source lines 668-671: starting from a
running value, fold each password character c through
sha (running ++ ":" ++ c). -/
def chainHash (sha : String → String) : String → List Char → String
  | running, [] => running
  | running, c :: rest => chainHash sha (sha (running ++ ":" ++ ⟨[c]⟩)) rest

/-- The recompute block of source lines 667-675: protected seed from
the current seed_hex and password_str. -/
def pwRecompute (sha : String → String) (seed_hex password_str : String) : String :=
  if 0 < password_str.length then
    let runninghash := chainHash sha (asciiLowerStr seed_hex) password_str.data
    asciiUpperStr (runninghash.take targetEntropyHex)
  else seed_hex

/-- Spec-side reference chain, written from the spec's words:
running starts at lowercase(SeedHex) and each password character c
in order replaces running by the digest of running + ":" + c. -/
def chainSpec (sha : String → String) : String → List Char → String
  | running, [] => running
  | running, c :: rest => chainSpec sha (sha (running ++ ":" ++ ⟨[c]⟩)) rest

/-- Spec-side reference strengthener: truncate the final digest of the
reference chain to targetEntropyHex characters and uppercase. -/
def strengthenSpec (sha : String → String) (seed password : String) : String :=
  asciiUpperStr ((chainSpec sha (asciiLowerStr seed) password.data).take targetEntropyHex)

/-- Keystroke codes the password loop accepts at all (lines 646-651). -/
def pwAllowed (kv : Nat) : Bool :=
  (48 ≤ kv && kv ≤ 57) || (65 ≤ kv && kv ≤ 90) || (97 ≤ kv && kv ≤ 122)
    || kv == 32 || kv == 13 || kv == 127

/-- Keystroke codes appended to the password (lines 653-656). -/
def pwIsChar (kv : Nat) : Bool :=
  (48 ≤ kv && kv ≤ 57) || (65 ≤ kv && kv ≤ 90) || (97 ≤ kv && kv ≤ 122) || kv == 32

/-- Python s[:-1]. -/
def strDropLast (s : String) : String := ⟨s.data.dropLast⟩

/-- The password loop over a list of keystroke codes, carried state is
(password_str, protected_seed_hex), processing stops at the first
accepted carriage return (code 13). -/
def pwProcess (sha : String → String) (seed : String) :
    List Nat → String × String → String × String
  | [], st => st
  | kv :: rest, st =>
    if pwAllowed kv = false then pwProcess sha seed rest st
    else if pwIsChar kv then
      let pw := st.1.push (Char.ofNat kv)
      pwProcess sha seed rest (pw, pwRecompute sha seed pw)
    else if kv == 127 then
      let pw := strDropLast st.1
      pwProcess sha seed rest (pw, pwRecompute sha seed pw)
    else st

/-- The password phase of getSeedFromMnemonics (lines 641-684): run
the loop from the empty password, then return the protected seed if
it is non-empty and the original seed otherwise (lines 682-684). -/
def getSeedPasswordPhase (sha : String → String) (seed : String) (keys : List Nat) : String :=
  let st := pwProcess sha seed keys ("", "")
  if 0 < st.2.length then st.2 else seed

/-- The final password string an edit sequence leaves in the loop:
the same keystroke dispatch, tracking only password_str. -/
def pwEditString : List Nat → String → String
  | [], pw => pw
  | kv :: rest, pw =>
    if pwAllowed kv = false then pwEditString rest pw
    else if pwIsChar kv then pwEditString rest (pw.push (Char.ofNat kv))
    else if kv == 127 then pwEditString rest (strDropLast pw)
    else pw

/-- Final password left by a keystroke sequence starting from empty. -/
def finalPassword (keys : List Nat) : String := pwEditString keys ""

/-- What the password phase returns, as a function of the final values
only: the seed for an empty password, otherwise the recomputed
protected seed unless that is empty, in which case the seed. -/
def finalizeSeed (sha : String → String) (seed pw : String) : String :=
  if 0 < pw.length then
    let prot := pwRecompute sha seed pw
    if 0 < prot.length then prot else seed
  else seed

/-! ### SHA-256 (the hashlib.sha256(...).hexdigest() the source calls)

A concrete executable SHA-256 over lists of byte values, used to
instantiate the hash-function parameter of the password model in
witnesses, and validated below against the standard test vectors. -/

/-- Truncation to a 32-bit word. -/
def mask32 (n : Nat) : Nat := n % 4294967296

/-- Right rotation of a 32-bit word by r places. -/
def rotr32 (r x : Nat) : Nat := mask32 ((x >>> r) ||| (x <<< (32 - r)))

/-- Bitwise complement of a 32-bit word. -/
def not32 (x : Nat) : Nat := 4294967295 ^^^ x

/-- SHA-256 Ch function. -/
def shaCh (x y z : Nat) : Nat := (x &&& y) ^^^ (not32 x &&& z)

/-- SHA-256 Maj function. -/
def shaMaj (x y z : Nat) : Nat := (x &&& y) ^^^ (x &&& z) ^^^ (y &&& z)

/-- SHA-256 big Sigma0. -/
def bigSigma0 (x : Nat) : Nat := rotr32 2 x ^^^ rotr32 13 x ^^^ rotr32 22 x

/-- SHA-256 big Sigma1. -/
def bigSigma1 (x : Nat) : Nat := rotr32 6 x ^^^ rotr32 11 x ^^^ rotr32 25 x

/-- SHA-256 small sigma0. -/
def smallSigma0 (x : Nat) : Nat := rotr32 7 x ^^^ rotr32 18 x ^^^ (x >>> 3)

/-- SHA-256 small sigma1. -/
def smallSigma1 (x : Nat) : Nat := rotr32 17 x ^^^ rotr32 19 x ^^^ (x >>> 10)

/-- The 64 SHA-256 round constants (decimal). -/
def shaK : List Nat :=
  [1116352408, 1899447441, 3049323471, 3921009573, 961987163, 1508970993,
   2453635748, 2870763221, 3624381080, 310598401, 607225278, 1426881987,
   1925078388, 2162078206, 2614888103, 3248222580, 3835390401, 4022224774,
   264347078, 604807628, 770255983, 1249150122, 1555081692, 1996064986,
   2554220882, 2821834349, 2952996808, 3210313671, 3336571891, 3584528711,
   113926993, 338241895, 666307205, 773529912, 1294757372, 1396182291,
   1695183700, 1986661051, 2177026350, 2456956037, 2730485921, 2820302411,
   3259730800, 3345764771, 3516065817, 3600352804, 4094571909, 275423344,
   430227734, 506948616, 659060556, 883997877, 958139571, 1322822218,
   1537002063, 1747873779, 1955562222, 2024104815, 2227730452, 2361852424,
   2428436474, 2756734187, 3204031479, 3329325298]

/-- Big-endian byte decomposition of n into k bytes. -/
def beBytes : Nat → Nat → List Nat
  | 0, _ => []
  | k + 1, n => beBytes k (n / 256) ++ [n % 256]

/-- SHA-256 message padding: append 0x80, zeros to 56 mod 64, and the
bit length as 8 big-endian bytes. -/
def sha256pad (msg : List Nat) : List Nat :=
  let padZeros := (64 - (msg.length + 9) % 64) % 64
  msg ++ [0x80] ++ List.replicate padZeros 0 ++ beBytes 8 (8 * msg.length)

/-- Split a byte list into 64-byte chunks (first argument is fuel). -/
def chunks64F : Nat → List Nat → List (List Nat)
  | 0, _ => []
  | _, [] => []
  | fuel + 1, l => l.take 64 :: chunks64F fuel (l.drop 64)

/-- Combine 4 big-endian bytes into one 32-bit word. -/
def wordsOfBytesF : Nat → List Nat → List Nat
  | 0, _ => []
  | _, [] => []
  | fuel + 1, l =>
    (l.take 4).foldl (fun a b => 256 * a + b) 0 :: wordsOfBytesF fuel (l.drop 4)

/-- The i-th element of a word list, 0 out of range. -/
def wget (w : List Nat) (i : Nat) : Nat := w.getD i 0

/-- Extend the 16-word message schedule out to 64 words. -/
def extendSchedule : Nat → List Nat → List Nat
  | 0, w => w
  | n + 1, w =>
    let s := w.length
    let next := mask32 (smallSigma1 (wget w (s - 2)) + wget w (s - 7)
      + smallSigma0 (wget w (s - 15)) + wget w (s - 16))
    extendSchedule n (w ++ [next])

/-- Working state of the SHA-256 compression function. -/
structure Hash8 where
  a : Nat
  b : Nat
  c : Nat
  d : Nat
  e : Nat
  f : Nat
  g : Nat
  h : Nat
  deriving Repr, DecidableEq

/-- SHA-256 initial hash value (decimal). -/
def shaInit : Hash8 :=
  ⟨1779033703, 3144134277, 1013904242, 2773480762,
   1359893119, 2600822924, 528734635, 1541459225⟩

/-- One SHA-256 compression round with round constant k and schedule
word w. -/
def shaRound (st : Hash8) (kw : Nat × Nat) : Hash8 :=
  let t1 := mask32 (st.h + bigSigma1 st.e + shaCh st.e st.f st.g + kw.1 + kw.2)
  let t2 := mask32 (bigSigma0 st.a + shaMaj st.a st.b st.c)
  ⟨mask32 (t1 + t2), st.a, st.b, st.c, mask32 (st.d + t1), st.e, st.f, st.g⟩

/-- Add two compression states word-wise mod 2^32. -/
def addHash8 (x y : Hash8) : Hash8 :=
  ⟨mask32 (x.a + y.a), mask32 (x.b + y.b), mask32 (x.c + y.c), mask32 (x.d + y.d),
   mask32 (x.e + y.e), mask32 (x.f + y.f), mask32 (x.g + y.g), mask32 (x.h + y.h)⟩

/-- Process one 64-byte block. -/
def shaBlock (st : Hash8) (block : List Nat) : Hash8 :=
  let w := extendSchedule 48 (wordsOfBytesF block.length block)
  addHash8 st ((shaK.zip w).foldl shaRound st)

/-- The 32 digest bytes of a SHA-256 state. -/
def hash8Bytes (st : Hash8) : List Nat :=
  beBytes 4 st.a ++ beBytes 4 st.b ++ beBytes 4 st.c ++ beBytes 4 st.d ++
  beBytes 4 st.e ++ beBytes 4 st.f ++ beBytes 4 st.g ++ beBytes 4 st.h

/-- SHA-256 digest (32 bytes) of a list of message bytes. -/
def sha256bytes (msg : List Nat) : List Nat :=
  let padded := sha256pad msg
  hash8Bytes ((chunks64F padded.length padded).foldl shaBlock shaInit)

/-- One lowercase hexadecimal digit character for a value below 16. -/
def hexLowerDigit (d : Nat) : Char :=
  if d < 10 then Char.ofNat (48 + d) else Char.ofNat (87 + d)

/-- Two lowercase hex characters of one byte. -/
def byteToHexChars (b : Nat) : List Char := [hexLowerDigit (b / 16), hexLowerDigit (b % 16)]

/-- Lowercase hex string of a byte list (hexdigest formatting). -/
def bytesToHexStr (bs : List Nat) : String := ⟨(bs.map byteToHexChars).flatten⟩

/-- The byte values of an ASCII string (Python 2 str bytes). -/
def strToBytes (s : String) : List Nat := s.data.map Char.toNat

/-- hashlib.sha256(s).hexdigest() for an ASCII string s. -/
def sha256hexStr (s : String) : String := bytesToHexStr (sha256bytes (strToBytes s))

/-! ### os.path.splitext and str.split helpers -/

/-- Index of the last '.' in a character list, if any. -/
def rfindDotAux : List Char → Option Nat
  | [] => none
  | c :: rest =>
    match rfindDotAux rest with
    | some i => some (i + 1)
    | none => if c = '.' then some 0 else none

/-- Python os.path.splitext for a plain file name (no directory
separators): split at the last dot unless every character before it
is itself a dot. -/
def pySplitExt (s : String) : String × String :=
  match rfindDotAux s.data with
  | none => (s, "")
  | some i =>
    if (s.data.take i).all (fun c => c = '.') then (s, "")
    else (⟨s.data.take i⟩, ⟨s.data.drop i⟩)

/-- Helper for pySplitWs: split a character list at spaces, dropping
empty pieces; acc holds the current word reversed. -/
def splitWsAux : List Char → List Char → List String
  | [], acc => if acc = [] then [] else [⟨acc.reverse⟩]
  | c :: rest, acc =>
    if c = ' ' then
      (if acc = [] then splitWsAux rest [] else (⟨acc.reverse⟩ : String) :: splitWsAux rest [])
    else splitWsAux rest (c :: acc)

/-- Python str.split() restricted to the space separators produced by
' '.join: split on runs of spaces and drop empty pieces. -/
def pySplitWs (s : String) : List String := splitWsAux s.data []

/-- Helper for joinSpace: characters of the words separated by single
spaces. -/
def joinSpaceAux : List String → List Char
  | [] => []
  | [w] => w.data
  | w :: rest => w.data ++ ' ' :: joinSpaceAux rest

/-- Python ' '.join(words). -/
def joinSpace (words : List String) : String := ⟨joinSpaceAux words⟩

/-! ### Signing loop (source lines 863-877 with electrumSignRaw 309-343)

electrumSignRaw initializes outData = {'complete': False}, runs the
external signtransaction command inside a try/except that swallows
every exception (spawn failure, prompt mismatch, timeout), and only
replaces outData by the parsed output when the child exited cleanly
with status 0 and no signal.  The per-transaction external outcome
is therefore modelled by an oracle value: a clean exit carrying the
parsed output, a non-zero/signalled exit, or an interaction fault. -/

/-- The parsed output record of one sign call; complete is the value
of its 'complete' key and payload stands for the rest. -/
structure OutData where
  complete : Bool
  payload : String
  deriving Repr, DecidableEq

/-- outData = {'complete': False}, the initial value in electrumSignRaw. -/
def defaultOutData : OutData := ⟨false, ""⟩

/-- Outcome of one external signtransaction interaction. -/
inductive SignCallResult where
  | exited (parsed : OutData)
  | exitFailed
  | fault
  deriving Repr, DecidableEq

/-- electrumSignRaw as a function of the external outcome: the parsed
output on a clean exit, the initial {'complete': False} otherwise. -/
def electrumSignRaw : SignCallResult → OutData
  | .exited parsed => parsed
  | .exitFailed => defaultOutData
  | .fault => defaultOutData

/-- Result file name for one input file (lines 865 and 870-873):
success or failure marker, then the input base name with the
"unsigned" stem removed, then the ".txn" extension. -/
def resultFileNameFor (fileName : String) (outData : OutData) : String :=
  let basename := (pySplitExt fileName).1
  let markerStr := if outData.complete = true then kSignedTxnFile_success
    else kSignedTxnFile_failure
  markerStr ++ ⟨basename.data.drop kUnsignedTxnFileBase.length⟩ ++ kTxnFileExtension

/-- A write-log file system: newest write first. -/
abbrev WriteFS := List (String × OutData)

/-- Record one file write. -/
def fsWrite (fs : WriteFS) (name : String) (d : OutData) : WriteFS := (name, d) :: fs

/-- Content a reader sees for a name: the newest write to it. -/
def fsRead (fs : WriteFS) (name : String) : Option OutData :=
  (fs.find? (fun e => e.1 = name)).map (fun e => e.2)

/-- The signing loop over the discovered unsigned-transaction files,
each paired with the outcome of its external sign call: per file,
electrumSignRaw produces outData, the result file is written, and
its name is appended to resultFileNames. -/
def signLoopAux (acc : List String) (fs : WriteFS) :
    List (String × SignCallResult) → List String × WriteFS
  | [] => (acc, fs)
  | (fileName, r) :: rest =>
    let outData := electrumSignRaw r
    let rName := resultFileNameFor fileName outData
    signLoopAux (acc ++ [rName]) (fsWrite fs rName outData) rest

/-- The whole signing loop from an empty result list and write log. -/
def signTransactionLoop (txns : List (String × SignCallResult)) : List String × WriteFS :=
  signLoopAux [] [] txns

/-! ### Temp wallet cleanup (source lines 857-889 and 213-215)

The signTransaction branch runs restore, start, the signing loop and
stop inside a try whose finally block (lines 883-889) removes
kTempWalletPath if it exists.  electrumRestore itself first removes
a stale wallet file (lines 213-215) and the external restore may
recreate it.  An exception raised at any point inside the try block
skips the remaining steps; the finally block runs regardless. -/

/-- A file system as the list of existing paths. -/
abbrev PathFS := List String

/-- Whether a path exists. -/
def fsExists (fs : PathFS) (p : String) : Bool := fs.contains p

/-- os.remove of a path. -/
def fsRemove (fs : PathFS) (p : String) : PathFS := fs.filter (fun q => q ≠ p)

/-- Creation of a path. -/
def fsCreate (fs : PathFS) (p : String) : PathFS := p :: fs

/-- electrumRestore's effect on the file system: delete any stale
wallet file, then the external restore may create a fresh one. -/
def electrumRestoreFS (creates : Bool) (fs : PathFS) : PathFS :=
  let fs := if fsExists fs kTempWalletPath then fsRemove fs kTempWalletPath else fs
  if creates then fsCreate fs kTempWalletPath else fs

/-- One step of the try block of the signing run.  raiseExn stands for
an exception raised at that point (per-step failures inside the
electrum helpers are swallowed there and are ordinary steps). -/
inductive SignRunStep where
  | restore (creates : Bool)
  | daemonStart
  | signOne (outFile : String)
  | daemonStop
  | raiseExn
  deriving Repr, DecidableEq

/-- File-system effect of one non-raising step. -/
def stepEffectFS (fs : PathFS) : SignRunStep → PathFS
  | .restore creates => electrumRestoreFS creates fs
  | .daemonStart => fs
  | .signOne outFile => fsCreate fs outFile
  | .daemonStop => fs
  | .raiseExn => fs

/-- The try block: execute steps in order; an exception skips the rest. -/
def runTryBody : List SignRunStep → PathFS → PathFS
  | [], fs => fs
  | .raiseExn :: _, fs => fs
  | s :: rest, fs => runTryBody rest (stepEffectFS fs s)

/-- The finally block of lines 883-889: delete the temp wallet file if
it exists. -/
def walletCleanup (fs : PathFS) : PathFS :=
  if fsExists fs kTempWalletPath then fsRemove fs kTempWalletPath else fs

/-- The whole signing run: the try body under every exception
scenario, always followed by the finally block. -/
def signTransactionRun (steps : List SignRunStep) (fs : PathFS) : PathFS :=
  walletCleanup (runTryBody steps fs)

/-! ### Mnemonic round-trip validation and exit status (lines 786-843)

The seed is lowercased, encoded by mnemonic.mn_encode, the words are
joined with spaces, and mnemonic.mn_decode of the split string must
reproduce the lowercased seed; otherwise an exception is raised,
caught by the top-level handler, which prints its message and calls
sys.exit(1).  The codec functions live in the bundled external
mnemonic module and are parameters here. -/

/-- The round-trip validation of lines 787-803: ok with the lowercased
seed, or the message of the exception raised on a mismatch. -/
def roundTripCheck (enc : String → List String) (dec : List String → String)
    (seed0 : String) : Except String String :=
  let seed_hex := asciiLowerStr seed0
  let seed_mnemonic := joinSpace (enc seed_hex)
  let seed_hextest := dec (pySplitWs seed_mnemonic)
  if seed_hex ≠ seed_hextest then Except.error "Validation failed decode equivalence test."
  else Except.ok seed_hex

/-- Exit status and printed messages of the run as decided by the
round-trip check: the handler of lines 834-838 prints the message
and exits 1; otherwise the run continues to a normal exit 0. -/
def runExitResult (enc : String → List String) (dec : List String → String)
    (seed0 : String) : Nat × List String :=
  match roundTripCheck enc dec seed0 with
  | Except.error e => (1, ["\n" ++ e])
  | Except.ok _ => (0, [])

/-- A concrete stand-in codec encoder whose round trip fails. -/
def encConst : String → List String := fun _ => ["abc"]

/-- A concrete stand-in codec decoder whose round trip fails. -/
def decBad : List String → String := fun _ => "ffff"

/-- A concrete stand-in codec encoder whose round trip succeeds. -/
def encId : String → List String := fun s => [s]

/-- A concrete stand-in codec decoder whose round trip succeeds. -/
def decJoin : List String → String := fun ws => joinSpace ws

/-! ### Startup order of checks and secret generation (lines 722-778)

The data-folder existence check (727-728) precedes everything; the
ephemeral random credential randomPassword = randomSeed(256) is
generated at line 733, before the mode prompt; in signing mode the
unsigned-file scan (767-775) runs after that, and the seed is only
obtained afterwards (line 776, or line 764 in create mode). -/

/-- Generation events for secret material. -/
inductive SecretEvent where
  | genCredential
  | genSeed
  deriving Repr, DecidableEq

/-- The mode the operator selects at the prompt. -/
inductive RunMode where
  | createKey
  | signTxn
  deriving Repr, DecidableEq

/-- The unsigned input-file filter of lines 767-773: base name starts
with "unsigned" and the extension is ".txn". -/
def isUnsignedTxnFile (name : String) : Bool :=
  let be := pySplitExt name
  be.1.startsWith kUnsignedTxnFileBase && be.2 == kTxnFileExtension

/-- The startup sequence: events of secret generation in order, and
the message of the startup exception if one is raised. -/
def startupRun (dirExists : Bool) (files : List String) (mode : RunMode) :
    List SecretEvent × Option String :=
  if dirExists = false then ([], some "Data folder /xfer must exist.")
  else
    let events := [SecretEvent.genCredential]
    match mode with
    | RunMode.createKey => (events ++ [SecretEvent.genSeed], none)
    | RunMode.signTxn =>
      let unsignedTxnFileNames := files.filter isUnsignedTxnFile
      if unsignedTxnFileNames.length < 1 then
        (events, some "No unsigned transaction files found (unsigned.txn, etc.).")
      else (events ++ [SecretEvent.genSeed], none)

/-! ## Helper lemmas -/

/-- A string has positive length exactly when it is not the empty string. -/
theorem str_length_pos_iff (s : String) : 0 < s.length ↔ s ≠ "" := by
  rw [← String.length_data]
  cases s with
  | mk l =>
    cases l with
    | nil =>
      constructor
      · intro h; simp at h
      · intro h; exact absurd rfl h
    | cons c t =>
      constructor
      · intro _ h
        have := congrArg String.data h
        simp at this
      · intro _; simp

/-- The length of the hexadecimal digit list is bounded by the number
of hexadecimal digits of any bound on the value. -/
theorem hexDigitsRevF_length_le : ∀ (fuel n k : Nat), n < 16 ^ k →
    (hexDigitsRevF fuel n).length ≤ k := by
  intro fuel
  induction fuel with
  | zero => intro n k _; simp [hexDigitsRevF]
  | succ fuel ih =>
    intro n k hn
    by_cases h0 : n = 0
    · simp [hexDigitsRevF, h0]
    · have hk : k ≠ 0 := by
        intro hk0
        rw [hk0, pow_zero] at hn
        omega
      obtain ⟨k', rfl⟩ := Nat.exists_eq_succ_of_ne_zero hk
      have hdiv : n / 16 < 16 ^ k' := by
        rw [Nat.div_lt_iff_lt_mul (by norm_num)]
        calc n < 16 ^ (k' + 1) := hn
        _ = 16 ^ k' * 16 := by ring
      simp only [hexDigitsRevF, h0, if_neg, ite_false]
      simpa using Nat.succ_le_succ (ih (n / 16) k' hdiv)

/-- The uppercase hexadecimal rendering of a value below 16^k has at
most k characters for positive k. -/
theorem toHexUpper_length_le (n k : Nat) (hk : 0 < k) (hn : n < 16 ^ k) :
    (toHexUpper n).data.length ≤ k := by
  unfold toHexUpper
  by_cases h0 : n = 0
  · simpa [h0] using hk
  · simp only [h0, ite_false]
    simpa using hexDigitsRevF_length_le n n k hn

/-- Zero-padding to a width at least the string length yields exactly
that width. -/
theorem padLeftZeros_length (w : Nat) (s : String) (h : s.data.length ≤ w) :
    (padLeftZeros w s).length = w := by
  rw [← String.length_data]
  simp only [padLeftZeros, List.length_append, List.length_replicate]
  omega

/-- Dice-loop invariant: over any non-empty run of accepted keystroke
codes, the normalized digits accumulate in order, the integer value
is the from-scratch base-6 value of all of them modulo
2^targetEntropyBits, and the displayed hex is its "%X" rendering. -/
theorem diceRun_invariant : ∀ (ks : List Nat) (st : DiceState),
    (∀ k ∈ ks, 49 ≤ k ∧ k ≤ 54) → ks ≠ [] →
    (ks.foldl diceStep st).rolls_normalized
      = st.rolls_normalized ++ ks.map (fun k => k - 49) ∧
    (ks.foldl diceStep st).rolls_int
      = ofBase6 (ks.foldl diceStep st).rolls_normalized % 2 ^ targetEntropyBits ∧
    (ks.foldl diceStep st).seed_hex = toHexUpper (ks.foldl diceStep st).rolls_int := by
  intro ks
  induction ks with
  | nil => intro st _ hne; exact absurd rfl hne
  | cons k rest ih =>
    intro st hval _
    have hk := hval k (by simp)
    have hstep : diceStep st k =
        ⟨st.rolls_arg ++ [k], st.rolls_normalized ++ [k - 49],
         ofBase6 (st.rolls_normalized ++ [k - 49]) % 2 ^ targetEntropyBits,
         toHexUpper (ofBase6 (st.rolls_normalized ++ [k - 49]) % 2 ^ targetEntropyBits)⟩ := by
      unfold diceStep
      rw [if_neg (by omega)]
    by_cases hrest : rest = []
    · subst hrest
      simp [List.foldl, hstep]
    · have hvr : ∀ k' ∈ rest, 49 ≤ k' ∧ k' ≤ 54 := fun k' hk' => hval k' (by simp [hk'])
      have := ih (diceStep st k) hvr hrest
      rw [hstep] at this
      simp only [List.foldl, hstep]
      refine ⟨?_, this.2.1, this.2.2⟩
      rw [this.1]
      simp

/-- C2: for every sequence of exactly minRolls dice digits in 1..6, the
final SeedHex of the dice-entry path has exactly targetEntropyHex
characters and equals the fixed-width hex formatting of the base-6
value of the normalized (digit minus 1) sequence modulo
2^targetEntropyBits. -/
theorem dice_seed_fixed_width (digits : List Nat)
    (hd : ∀ d ∈ digits, 1 ≤ d ∧ d ≤ 6) (hlen : digits.length = minDiceRolls) :
    (getSeedFromDiceResults (digits.map (fun d => d + 48))).length = targetEntropyHex ∧
    getSeedFromDiceResults (digits.map (fun d => d + 48))
      = formatHexSpec targetEntropyHex
          (base6ValueSpec (digits.map (fun d => d - 1)) % 2 ^ targetEntropyBits) := by
  have hne : digits.map (fun d => d + 48) ≠ [] := by
    intro h
    rw [List.map_eq_nil_iff] at h
    rw [h] at hlen
    simp [minDiceRolls] at hlen
  have hval : ∀ k ∈ digits.map (fun d => d + 48), 49 ≤ k ∧ k ≤ 54 := by
    intro k hk
    rw [List.mem_map] at hk
    obtain ⟨d, hd', rfl⟩ := hk
    have := hd d hd'
    omega
  have hinv := diceRun_invariant (digits.map (fun d => d + 48)) initDiceState hval hne
  have hnorm : (diceRun (digits.map (fun d => d + 48))).rolls_normalized
      = digits.map (fun d => d - 1) := by
    rw [show diceRun (digits.map (fun d => d + 48))
          = (digits.map (fun d => d + 48)).foldl diceStep initDiceState from rfl]
    rw [hinv.1]
    simp only [initDiceState, List.nil_append, List.map_map]
    apply List.map_congr_left
    intro d _
    simp only [Function.comp_apply]
    omega
  have hint : (diceRun (digits.map (fun d => d + 48))).rolls_int
      = base6ValueSpec (digits.map (fun d => d - 1)) % 2 ^ targetEntropyBits := by
    have h2 := hinv.2.1
    rw [show diceRun (digits.map (fun d => d + 48))
          = (digits.map (fun d => d + 48)).foldl diceStep initDiceState from rfl, h2]
    rw [show ((digits.map (fun d => d + 48)).foldl diceStep initDiceState).rolls_normalized
          = (diceRun (digits.map (fun d => d + 48))).rolls_normalized from rfl, hnorm]
    rfl
  constructor
  · unfold getSeedFromDiceResults formatHexFixed
    apply padLeftZeros_length
    apply toHexUpper_length_le _ targetEntropyHex (by norm_num [targetEntropyHex])
    have hlt : (diceRun (digits.map (fun d => d + 48))).rolls_int < 2 ^ targetEntropyBits := by
      rw [hint]
      exact Nat.mod_lt _ (by norm_num [targetEntropyBits])
    calc (diceRun (digits.map (fun d => d + 48))).rolls_int
        < 2 ^ targetEntropyBits := hlt
    _ = 16 ^ targetEntropyHex := by norm_num [targetEntropyBits, targetEntropyHex]
  · unfold getSeedFromDiceResults formatHexFixed formatHexSpec
    rw [hint]

/-- C2 witness: the all-ones roll sequence of length 50. -/
theorem dice_seed_fixed_width_witness :
    (∀ d ∈ List.replicate 50 1, 1 ≤ d ∧ d ≤ 6) ∧
    (List.replicate 50 1).length = minDiceRolls ∧
    getSeedFromDiceResults ((List.replicate 50 1).map (fun d => d + 48))
      = formatHexSpec targetEntropyHex
          (base6ValueSpec ((List.replicate 50 1).map (fun d => d - 1))
            % 2 ^ targetEntropyBits) :=
  ⟨by decide, by decide,
    (dice_seed_fixed_width (List.replicate 50 1) (by decide) (by decide)).2⟩

/-- C9 counterexample: after the first accepted roll (digit 1, code 49)
the hex value shown for the partial seed is "0", whose width is 1,
not targetEntropyHex: the in-loop display "%X" drops leading zeros
and is not fixed-width. -/
theorem dice_display_width_counterexample :
    (diceRun [49]).seed_hex = "0" ∧ (diceRun [49]).seed_hex.length ≠ targetEntropyHex := by
  constructor
  · rfl
  · decide

/-- C9 amended: after every accepted roll the shown hex value is
recomputed from scratch as the base-6 value of the normalized rolls
so far modulo 2^targetEntropyBits, but rendered by "%X" without
fixed width (leading zeros dropped); only the final seed string is
reformatted at fixed width targetEntropyHex with leading zeros. -/
theorem dice_display_recomputed_from_scratch (digits : List Nat)
    (hd : ∀ d ∈ digits, 1 ≤ d ∧ d ≤ 6) (hne : digits ≠ []) :
    (diceRun (digits.map (fun d => d + 48))).seed_hex
      = toHexUpper (base6ValueSpec (digits.map (fun d => d - 1)) % 2 ^ targetEntropyBits) ∧
    (getSeedFromDiceResults (digits.map (fun d => d + 48))).length = targetEntropyHex := by
  have hne' : digits.map (fun d => d + 48) ≠ [] := by
    intro h
    rw [List.map_eq_nil_iff] at h
    exact hne h
  have hval : ∀ k ∈ digits.map (fun d => d + 48), 49 ≤ k ∧ k ≤ 54 := by
    intro k hk
    rw [List.mem_map] at hk
    obtain ⟨d, hd', rfl⟩ := hk
    have := hd d hd'
    omega
  have hinv := diceRun_invariant (digits.map (fun d => d + 48)) initDiceState hval hne'
  have hnorm : ((digits.map (fun d => d + 48)).foldl diceStep initDiceState).rolls_normalized
      = digits.map (fun d => d - 1) := by
    rw [hinv.1]
    simp only [initDiceState, List.nil_append, List.map_map]
    apply List.map_congr_left
    intro d _
    simp only [Function.comp_apply]
    omega
  have hint : ((digits.map (fun d => d + 48)).foldl diceStep initDiceState).rolls_int
      = base6ValueSpec (digits.map (fun d => d - 1)) % 2 ^ targetEntropyBits := by
    rw [hinv.2.1, hnorm]
    rfl
  constructor
  · rw [show diceRun (digits.map (fun d => d + 48))
          = (digits.map (fun d => d + 48)).foldl diceStep initDiceState from rfl]
    rw [hinv.2.2, hint]
  · unfold getSeedFromDiceResults formatHexFixed
    apply padLeftZeros_length
    apply toHexUpper_length_le _ targetEntropyHex (by norm_num [targetEntropyHex])
    have hlt : (diceRun (digits.map (fun d => d + 48))).rolls_int < 2 ^ targetEntropyBits := by
      rw [show diceRun (digits.map (fun d => d + 48))
            = (digits.map (fun d => d + 48)).foldl diceStep initDiceState from rfl, hint]
      exact Nat.mod_lt _ (by norm_num [targetEntropyBits])
    calc (diceRun (digits.map (fun d => d + 48))).rolls_int
        < 2 ^ targetEntropyBits := hlt
    _ = 16 ^ targetEntropyHex := by norm_num [targetEntropyBits, targetEntropyHex]

/-- C9 amended witness: the single roll 1. -/
theorem dice_display_recomputed_witness :
    (∀ d ∈ [1], 1 ≤ d ∧ d ≤ 6) ∧ ([1] : List Nat) ≠ [] ∧
    (diceRun ([1].map (fun d => d + 48))).seed_hex
      = toHexUpper (base6ValueSpec ([1].map (fun d => d - 1)) % 2 ^ targetEntropyBits) :=
  ⟨by decide, by decide,
    (dice_display_recomputed_from_scratch [1] (by decide) (by decide)).1⟩

/-- The running-hash chain of the source coincides with the spec's
reference chain. -/
theorem chainHash_eq_chainSpec (sha : String → String) :
    ∀ (cs : List Char) (r : String), chainHash sha r cs = chainSpec sha r cs := by
  intro cs
  induction cs with
  | nil => intro r; rfl
  | cons c rest ih => intro r; simp only [chainHash, chainSpec]; exact ih _

/-- The password component of the loop state depends only on the edit
sequence, not on the hash function or the seed. -/
theorem pwProcess_fst (sha : String → String) (seed : String) :
    ∀ (ks : List Nat) (st : String × String),
    (pwProcess sha seed ks st).1 = pwEditString ks st.1 := by
  intro ks
  induction ks with
  | nil => intro st; rfl
  | cons kv rest ih =>
    intro st
    cases hA : pwAllowed kv with
    | false => simpa [pwProcess, pwEditString, hA] using ih st
    | true =>
      cases hC : pwIsChar kv with
      | true => simpa [pwProcess, pwEditString, hA, hC] using ih _
      | false =>
        cases hB : kv == 127 with
        | true => simpa [pwProcess, pwEditString, hA, hC, hB] using ih _
        | false => simp [pwProcess, pwEditString, hA, hC, hB]

/-- Loop invariant of the password phase: the protected seed field is
either still its initial empty value (with the password also still
empty) or the from-scratch recomputation for the current password. -/
theorem pwProcess_invariant (sha : String → String) (seed : String) :
    ∀ (ks : List Nat) (st : String × String),
    (st.1 = "" ∧ st.2 = "") ∨ st.2 = pwRecompute sha seed st.1 →
    ((pwProcess sha seed ks st).1 = "" ∧ (pwProcess sha seed ks st).2 = "")
      ∨ (pwProcess sha seed ks st).2 = pwRecompute sha seed (pwProcess sha seed ks st).1 := by
  intro ks
  induction ks with
  | nil => intro st h; exact h
  | cons kv rest ih =>
    intro st h
    cases hA : pwAllowed kv with
    | false => simpa [pwProcess, hA] using ih st h
    | true =>
      cases hC : pwIsChar kv with
      | true => simpa [pwProcess, hA, hC] using ih _ (Or.inr rfl)
      | false =>
        cases hB : kv == 127 with
        | true => simpa [pwProcess, hA, hC, hB] using ih _ (Or.inr rfl)
        | false => simpa [pwProcess, hA, hC, hB] using h

/-- The value the password phase returns is a function of the seed and
the final password string alone. -/
theorem getSeedPasswordPhase_eq_finalize (sha : String → String) (seed : String)
    (keys : List Nat) :
    getSeedPasswordPhase sha seed keys = finalizeSeed sha seed (finalPassword keys) := by
  have hfst : (pwProcess sha seed keys ("", "")).1 = finalPassword keys :=
    pwProcess_fst sha seed keys ("", "")
  have hinv := pwProcess_invariant sha seed keys ("", "") (Or.inl ⟨rfl, rfl⟩)
  show (if 0 < (pwProcess sha seed keys ("", "")).2.length
      then (pwProcess sha seed keys ("", "")).2 else seed)
    = if 0 < (finalPassword keys).length
      then (if 0 < (pwRecompute sha seed (finalPassword keys)).length
        then pwRecompute sha seed (finalPassword keys) else seed)
      else seed
  rcases hinv with ⟨h1, h2⟩ | h2
  · rw [h2]
    rw [h1] at hfst
    rw [← hfst]
    simp
  · rw [h2, hfst]
    by_cases hpw : 0 < (finalPassword keys).length
    · rw [if_pos hpw]
    · have hempty : finalPassword keys = "" := by
        by_contra hne
        exact hpw ((str_length_pos_iff _).mpr hne)
      have hrec : pwRecompute sha seed (finalPassword keys) = seed := by
        rw [hempty]
        unfold pwRecompute
        rw [if_neg (by decide)]
      rw [hrec, if_neg hpw]
      split <;> rfl

/-- C1: for every hash function, seed and non-empty password, the
protected seed the recompute step produces equals the spec's
reference chain (lowercase the seed, fold each password character
through the digest of running + ":" + c, truncate to
targetEntropyHex characters, uppercase); in particular for the
all-zero seed and password "A" it is the uppercased 32-character
truncation of the digest of "00000000000000000000000000000000:A". -/
theorem pw_protected_matches_reference (sha : String → String) (seed pw : String)
    (hpw : 0 < pw.length) :
    pwRecompute sha seed pw = strengthenSpec sha seed pw ∧
    pwRecompute sha "00000000000000000000000000000000" "A"
      = asciiUpperStr ((sha "00000000000000000000000000000000:A").take targetEntropyHex) := by
  constructor
  · unfold pwRecompute strengthenSpec
    rw [if_pos hpw, chainHash_eq_chainSpec]
  · unfold pwRecompute
    rw [if_pos (by decide)]
    have h1 : asciiLowerStr "00000000000000000000000000000000"
        = "00000000000000000000000000000000" := by decide
    have h2 : ("A" : String).data = ['A'] := by decide
    rw [h1, h2]
    simp only [chainHash]
    have h3 : "00000000000000000000000000000000" ++ ":" ++ (⟨['A']⟩ : String)
        = "00000000000000000000000000000000:A" := by decide
    rw [h3]

/-- C1 witness at the hash function SHA-256, seed "ab", password "A". -/
theorem pw_protected_matches_reference_witness :
    0 < ("A" : String).length ∧
    pwRecompute sha256hexStr "ab" "A" = strengthenSpec sha256hexStr "ab" "A" :=
  ⟨by decide, (pw_protected_matches_reference sha256hexStr "ab" "A" (by decide)).1⟩

/-- C5: if the password entered is empty -- including when characters
were typed and then all deleted with backspace before the
terminator -- the seed returned by the password phase is the
original seed unchanged. -/
theorem pw_empty_password_keeps_seed (sha : String → String) (seed : String)
    (keys : List Nat) (h : finalPassword keys = "") :
    getSeedPasswordPhase sha seed keys = seed := by
  rw [getSeedPasswordPhase_eq_finalize, h]
  unfold finalizeSeed
  rw [if_neg (by simp [← String.length_data])]

/-- C5 witness: type 'a', delete it with backspace, then return. -/
theorem pw_empty_password_keeps_seed_witness :
    finalPassword [97, 127, 13] = "" ∧
    getSeedPasswordPhase sha256hexStr "2abc" [97, 127, 13] = "2abc" :=
  ⟨by decide, pw_empty_password_keeps_seed sha256hexStr "2abc" [97, 127, 13] (by decide)⟩

/-- C6: two keystroke edit sequences that leave the same final password
produce the same finalized protected seed: the result depends only
on the final values of seed and password. -/
theorem pw_result_depends_only_on_final_password (sha : String → String) (seed : String)
    (ks1 ks2 : List Nat) (h : finalPassword ks1 = finalPassword ks2) :
    getSeedPasswordPhase sha seed ks1 = getSeedPasswordPhase sha seed ks2 := by
  rw [getSeedPasswordPhase_eq_finalize, getSeedPasswordPhase_eq_finalize, h]

/-- C6 witness: typing "a" directly versus typing "b", deleting it and
typing "a" leave the same final password and the same result. -/
theorem pw_result_depends_only_on_final_password_witness :
    finalPassword [97, 13] = finalPassword [98, 127, 97, 13] ∧
    getSeedPasswordPhase sha256hexStr "11" [97, 13]
      = getSeedPasswordPhase sha256hexStr "11" [98, 127, 97, 13] :=
  ⟨by decide,
    pw_result_depends_only_on_final_password sha256hexStr "11" [97, 13] [98, 127, 97, 13]
      (by decide)⟩

/-- C10: in mnemonic word entry, an uppercase letter code (65..90) is
not rejected but lowercased (code + 32) and appended, a carriage
return (13) is treated as a space terminator, and exactly the codes
outside lowercase letters, uppercase letters, space, return and
backspace are rejected as out-of-range. -/
theorem word_key_classification (kv : Nat) :
    ((65 ≤ kv ∧ kv ≤ 90) →
       classifyWordKey kv = WordKeyAction.appendChar (Char.ofNat (kv + 32))) ∧
    classifyWordKey 13 = WordKeyAction.wordBreak ∧
    (classifyWordKey kv = WordKeyAction.reject ↔
       ¬ (97 ≤ kv ∧ kv ≤ 122) ∧ ¬ (65 ≤ kv ∧ kv ≤ 90) ∧ kv ≠ 32 ∧ kv ≠ 13 ∧ kv ≠ 127) := by
  refine ⟨?_, by decide, ?_⟩
  · intro h
    unfold classifyWordKey
    rw [if_pos h]
    rw [if_pos (by omega)]
  · unfold classifyWordKey
    by_cases hU : 65 ≤ kv ∧ kv ≤ 90
    · rw [if_pos hU, if_pos (by omega)]
      simp only [reduceCtorEq, false_iff]
      intro hcontra
      exact hcontra.2.1 hU
    · rw [if_neg hU]
      by_cases h13 : kv = 13
      · subst h13
        decide
      · rw [if_neg h13]
        by_cases hL : 97 ≤ kv ∧ kv ≤ 122
        · rw [if_pos hL]
          simp only [reduceCtorEq, false_iff]
          intro hcontra
          exact hcontra.1 hL
        · rw [if_neg hL]
          by_cases hR : kv ≠ 32 ∧ kv ≠ 127
          · rw [if_pos hR]
            simp only [true_iff]
            exact ⟨hL, hU, hR.1, h13, hR.2⟩
          · rw [if_neg hR]
            by_cases h127 : kv = 127
            · rw [if_pos h127]
              simp only [reduceCtorEq, false_iff]
              intro hcontra
              exact hcontra.2.2.2.2 h127
            · rw [if_neg h127]
              simp only [reduceCtorEq, false_iff]
              intro hcontra
              have h32 : kv ≠ 32 := hcontra.2.2.1
              exact hR ⟨h32, h127⟩

/-- C10 witness: the uppercase letter code 65 is accepted as 'a'. -/
theorem word_key_classification_witness :
    (65 ≤ 65 ∧ 65 ≤ 90) ∧
    classifyWordKey 65 = WordKeyAction.appendChar (Char.ofNat (65 + 32)) :=
  ⟨by decide, (word_key_classification 65).1 (by decide)⟩

/-- Unfolding of the signing loop: the result names are the per-input
names in order, and the write log holds one write per input. -/
theorem signLoopAux_spec : ∀ (txns : List (String × SignCallResult))
    (acc : List String) (fs : WriteFS),
    (signLoopAux acc fs txns).1
      = acc ++ txns.map (fun t => resultFileNameFor t.1 (electrumSignRaw t.2)) ∧
    (signLoopAux acc fs txns).2
      = (txns.map (fun t =>
          (resultFileNameFor t.1 (electrumSignRaw t.2), electrumSignRaw t.2))).reverse ++ fs := by
  intro txns
  induction txns with
  | nil => intro acc fs; simp [signLoopAux]
  | cons t rest ih =>
    intro acc fs
    obtain ⟨fileName, r⟩ := t
    simp only [signLoopAux]
    constructor
    · rw [(ih _ _).1]
      simp
    · rw [(ih _ _).2]
      simp [fsWrite]

/-- C3: every transaction's persisted outcome is a function of its own
input name and its own external sign outcome alone, so a fault at
one transaction marks only that transaction as failed and the loop
continues; in the two-input scenario where the external call
reports complete=true for the first and complete=false for the
second, exactly two output files are written, named with the
success marker plus the first input's suffix and the failure marker
plus the second input's suffix, and the second write leaves the
first persisted result unchanged. -/
theorem sign_loop_isolates_failures :
    (∀ txns : List (String × SignCallResult),
       (signTransactionLoop txns).1
         = txns.map (fun t => resultFileNameFor t.1 (electrumSignRaw t.2))) ∧
    (∀ fileName : String,
       resultFileNameFor fileName (electrumSignRaw SignCallResult.fault)
         = kSignedTxnFile_failure
             ++ (⟨(pySplitExt fileName).1.data.drop kUnsignedTxnFileBase.length⟩ : String)
             ++ kTxnFileExtension) ∧
    (signTransactionLoop
        [("unsigned1.txn", SignCallResult.exited ⟨true, "p1"⟩),
         ("unsigned2.txn", SignCallResult.exited ⟨false, "p2"⟩)]).1
      = ["signed-success1.txn", "signed-failure2.txn"] ∧
    (signTransactionLoop
        [("unsigned1.txn", SignCallResult.exited ⟨true, "p1"⟩),
         ("unsigned2.txn", SignCallResult.exited ⟨false, "p2"⟩)]).2.length = 2 ∧
    fsRead (signTransactionLoop
        [("unsigned1.txn", SignCallResult.exited ⟨true, "p1"⟩),
         ("unsigned2.txn", SignCallResult.exited ⟨false, "p2"⟩)]).2 "signed-success1.txn"
      = some ⟨true, "p1"⟩ ∧
    fsRead (signTransactionLoop
        [("unsigned1.txn", SignCallResult.exited ⟨true, "p1"⟩),
         ("unsigned2.txn", SignCallResult.exited ⟨false, "p2"⟩)]).2 "signed-failure2.txn"
      = some ⟨false, "p2"⟩ := by
  refine ⟨?_, ?_, by decide, by decide, by decide, by decide⟩
  · intro txns
    exact (signLoopAux_spec txns [] []).1
  · intro fileName
    rfl

/-- C4: after any signing run -- normal completion, per-step failures
(swallowed inside the electrum helpers), or an exception raised at
any point of the restore/start/sign/stop sequence -- the temporary
wallet file at kTempWalletPath does not exist: the finally-style
cleanup runs on every exit path. -/
theorem wallet_absent_after_any_run (steps : List SignRunStep) (fs : PathFS) :
    fsExists (signTransactionRun steps fs) kTempWalletPath = false := by
  unfold signTransactionRun walletCleanup
  by_cases h : fsExists (runTryBody steps fs) kTempWalletPath = true
  · rw [if_pos h]
    unfold fsExists fsRemove
    generalize runTryBody steps fs = l
    induction l with
    | nil => rfl
    | cons p rest ih =>
      rw [List.filter_cons]
      by_cases hp : p = kTempWalletPath
      · rw [if_neg (by simp [hp])]
        exact ih
      · rw [if_pos (by simp [hp])]
        rw [List.contains_cons]
        simp only [ih, Bool.or_false]
        simpa using Ne.symm hp
  · rw [if_neg h]
    simpa using h

/-- C7: for every codec and seed, a mismatch between the lowercased
seed and the decode of the re-encoded joined-and-split mnemonic
makes the run raise the validation exception, print its message and
exit with status 1, while a matching round trip continues to a
normal exit with status 0. -/
theorem roundtrip_mismatch_aborts (enc : String → List String)
    (dec : List String → String) (seed : String) :
    (dec (pySplitWs (joinSpace (enc (asciiLowerStr seed)))) ≠ asciiLowerStr seed →
       runExitResult enc dec seed
         = (1, ["\nValidation failed decode equivalence test."])) ∧
    (dec (pySplitWs (joinSpace (enc (asciiLowerStr seed)))) = asciiLowerStr seed →
       (runExitResult enc dec seed).1 = 0) := by
  constructor
  · intro hne
    unfold runExitResult roundTripCheck
    rw [if_pos (by exact fun h => hne h.symm)]
    rfl
  · intro heq
    unfold runExitResult roundTripCheck
    rw [if_neg (by simp [heq])]

/-- C7 witness: a failing codec exits 1 with the validation message and
a round-tripping codec reaches the normal exit status 0. -/
theorem roundtrip_mismatch_aborts_witness :
    decBad (pySplitWs (joinSpace (encConst (asciiLowerStr "00")))) ≠ asciiLowerStr "00" ∧
    runExitResult encConst decBad "00"
      = (1, ["\nValidation failed decode equivalence test."]) ∧
    decJoin (pySplitWs (joinSpace (encId (asciiLowerStr "ab")))) = asciiLowerStr "ab" ∧
    (runExitResult encId decJoin "ab").1 = 0 :=
  ⟨by decide, (roundtrip_mismatch_aborts encConst decBad "00").1 (by decide),
   by decide, (roundtrip_mismatch_aborts encId decJoin "ab").2 (by decide)⟩

/-- C8 counterexample: with the data folder present, signing mode
selected and no matching input file, the run does fail at startup,
but the ephemeral random credential has already been generated
before the failing scan -- contradicting the claim that such a
failure happens before any secret material is generated. -/
theorem startup_secret_order_counterexample :
    (startupRun true [] RunMode.signTxn).2.isSome = true ∧
    SecretEvent.genCredential ∈ (startupRun true [] RunMode.signTxn).1 := by
  decide

/-- C8 amended: a missing data folder fails before any secret material
(credential or seed) is generated; a signing run with no matching
unsigned-transaction file fails at startup before any seed is
obtained, but after the ephemeral random credential has already
been generated. -/
theorem startup_check_order (files : List String) (mode : RunMode)
    (hnone : files.filter isUnsignedTxnFile = []) :
    startupRun false files mode = ([], some "Data folder /xfer must exist.") ∧
    (startupRun true files RunMode.signTxn).2.isSome = true ∧
    SecretEvent.genSeed ∉ (startupRun true files RunMode.signTxn).1 ∧
    SecretEvent.genCredential ∈ (startupRun true files RunMode.signTxn).1 := by
  refine ⟨rfl, ?_, ?_, ?_⟩ <;>
    simp [startupRun, hnone]

/-- C8 amended witness: a folder containing only an unrelated file. -/
theorem startup_check_order_witness :
    (["readme.txt"].filter isUnsignedTxnFile = []) ∧
    SecretEvent.genSeed ∉ (startupRun true ["readme.txt"] RunMode.signTxn).1 ∧
    SecretEvent.genCredential ∈ (startupRun true ["readme.txt"] RunMode.signTxn).1 :=
  ⟨by decide,
   (startup_check_order ["readme.txt"] RunMode.signTxn (by decide)).2.2.1,
   (startup_check_order ["readme.txt"] RunMode.signTxn (by decide)).2.2.2⟩

set_option maxRecDepth 10000 in
/-- Sanity check of the embedded SHA-256 against the standard test
vector for the empty message. -/
theorem sha256hexStr_empty_vector :
    sha256hexStr ""
      = "e3b0c44298fc1c149afbf4c8996fb92427ae41e4649b934ca495991b7852b855" := by
  decide

set_option maxRecDepth 10000 in
/-- Sanity check of the embedded SHA-256 against the standard test
vector for "abc". -/
theorem sha256hexStr_abc_vector :
    sha256hexStr "abc"
      = "ba7816bf8f01cfea414140de5dae2223b00361a396177a9cb410ff61f20015ad" := by
  decide

set_option maxRecDepth 10000 in
/-- Concrete digest value of the spec's worked example input
"00000000000000000000000000000000:A". -/
theorem sha256hexStr_example_vector :
    sha256hexStr "00000000000000000000000000000000:A"
      = "14df5c6c15bc869231d08592e4d2db09dd527fe13ffb8539b12f83e8f73af5ca" := by
  decide

end AbsoluteZero
